import Mathlib

/-!
Verification development for the kube-log-helper repository.

The definitions below are shallow embeddings of the TypeScript sources:
* `LogPipeline` embeds the grep-pipeline parser/filter, the log-line
  classifier and the bounded buffer flush of the LogViewer component.
* `ShellFilter` embeds ShellFilterService (command validation, filter
  process lifecycle).
* `K8s` embeds the log-stream registry of K8sService.
* `SSHTunnel` embeds the tunnel registry of SSHTunnelService.

JavaScript `RegExp` objects are embedded as their source strings; where a
claim depends on regex *matching*, the match function is an explicit
parameter, and where it depends on regex *compilation succeeding*, the
validity oracle is an explicit parameter.  Fixed regexes appearing in the
code (timestamp patterns, the stage grammar, the dangerous-command
patterns) are translated into executable character-list matchers.
-/

/-- Kernel-reducible splitting of a character list at every occurrence of
the separator, with the splitting semantics of the JavaScript
`String.prototype.split` on a one-character separator: adjacent separators
and separators at either end produce empty fragments. -/
def splitCharsOn (sep : Char) : List Char → List (List Char)
  | [] => [[]]
  | c :: rest =>
    if c == sep then [] :: splitCharsOn sep rest
    else
      match splitCharsOn sep rest with
      | h :: t => (c :: h) :: t
      | [] => [[c]]

/-- Kernel-reducible whitespace trim of both ends of a character list, the
semantics of the JavaScript `trim`. -/
def trimChars (l : List Char) : List Char :=
  ((l.dropWhile Char.isWhitespace).reverse.dropWhile Char.isWhitespace).reverse

/-- String form of `trimChars`. -/
def trimStr (s : String) : String := String.mk (trimChars s.data)

/-- Kernel-reducible substring test: the needle occurs contiguously inside
the haystack. -/
def hasSubstring (needle : List Char) : List Char → Bool
  | [] => needle.isEmpty
  | c :: rest => needle.isPrefixOf (c :: rest) || hasSubstring needle rest

/-- Kernel-reducible ASCII-suitable lowering of a string. -/
def lowerStr (s : String) : String := String.mk (s.data.map Char.toLower)

namespace LogPipeline

/-- One compiled stage of a grep pipeline: the source string handed to the
regex constructor (after the invalid-regex escaping fallback), and the
exclude flag coming from the optional dash-v. Mirrors the element type of
the array built by `parseGrepPipeline` in the LogViewer source. -/
structure GrepStage where
  source : String
  exclude : Bool
deriving Repr, DecidableEq

/-- Characters escaped by the literal-string fallback, the character class
of the replace call: dot, star, plus, question mark, caret, dollar, braces,
parentheses, pipe, square brackets, backslash. -/
def isRegexMeta (c : Char) : Bool :=
  c == '.' || c == '*' || c == '+' || c == '?' || c == '^' || c == '$' ||
  c == Char.ofNat 123 || c == Char.ofNat 125 || c == '(' || c == ')' ||
  c == '|' || c == '[' || c == ']' || c == '\\'

/-- Embeds `pattern.replace(/[.*+?^${}()|[\]\\]/g, backslash-dollar-amp)`:
every metacharacter is prefixed with a backslash. -/
def escapeRegex (p : String) : String :=
  String.mk ((p.data.map (fun c => if isRegexMeta c then ['\\', c] else [c])).flatten)

/-- Embeds the try/catch around the regex constructor: if the pattern
compiles (per the validity oracle `rxValid`) it is used as is, otherwise
the escaped literal is compiled instead. -/
def mkGrepStage (rxValid : String → Bool) (ex : Bool) (pat : String) : GrepStage :=
  if rxValid pat then ⟨pat, ex⟩ else ⟨escapeRegex pat, ex⟩

/-- Consume one mandatory whitespace character and then any run of further
whitespace: the maximal-munch reading of a whitespace-plus regex atom
whose continuation can never start with whitespace. -/
def dropWs1 : List Char → Option (List Char)
  | [] => none
  | c :: rest => if c.isWhitespace then some (rest.dropWhile Char.isWhitespace) else none

/-- Match a quote-delimited pattern alternative that must span the whole
remaining stage: an opening quote `q`, one or more non-quote characters,
and a closing quote at the very end. Returns the captured pattern. -/
def matchQuoted (q : Char) (l : List Char) : Option String :=
  match l with
  | [] => none
  | c :: rest =>
    if c == q then
      match rest.getLast? with
      | some d =>
        let mid := rest.dropLast
        if d == q && (!mid.isEmpty) && mid.all (fun e => e != q) then
          some (String.mk mid)
        else none
      | none => none
    else none

/-- Match the bare-word alternative: one or more non-whitespace characters
spanning the whole remaining stage. -/
def matchBareWord (l : List Char) : Option String :=
  if (!l.isEmpty) && l.all (fun c => !c.isWhitespace) then some (String.mk l) else none

/-- The three pattern alternatives of the stage grammar, in source order:
double-quoted, single-quoted, bare word. -/
def matchPatternEnd (l : List Char) : Option String :=
  matchQuoted '"' l <|> matchQuoted (Char.ofNat 39) l <|> matchBareWord l

/-- Match the optional dash-v group followed by mandatory whitespace; the
letter v is case-insensitive because the whole stage regex carries the
case-insensitive flag. -/
def matchDashV (l : List Char) : Option (List Char) :=
  match l with
  | c1 :: c2 :: rest =>
    if (c1 == '-') && (c2.toLower == 'v') then dropWs1 rest else none
  | _ => none

/-- Embeds the anchored, case-insensitive stage regex of the source: the
word grep, whitespace, an optional dash-v group (with backtracking to the
no-dash-v reading when the rest does not parse), then exactly one of the
three pattern alternatives reaching the end of the stage. Returns the
exclude flag and the captured pattern. -/
def matchGrepStage (part : String) : Option (Bool × String) :=
  match part.data with
  | g :: r :: e :: p :: rest =>
    if (g.toLower == 'g') && (r.toLower == 'r') && (e.toLower == 'e') && (p.toLower == 'p') then
      match dropWs1 rest with
      | some rest1 =>
        (match matchDashV rest1 with
         | some rest2 => (matchPatternEnd rest2).map (fun pat => (true, pat))
         | none => none)
        <|> (matchPatternEnd rest1).map (fun pat => (false, pat))
      | none => none
    else none
  | _ => none

/-- Embeds `parseGrepPipeline`: empty-trim input gives no filters; the
expression is split at every pipe character, parts are trimmed, empty
parts are skipped, parts matching the stage grammar contribute a compiled
stage, and all other parts are dropped. -/
def parseGrepPipeline (rxValid : String → Bool) (filter : String) : List GrepStage :=
  if trimStr filter = "" then []
  else
    (((splitCharsOn '|' filter.data).map trimChars).map String.mk).filterMap (fun part =>
      if part = "" then none
      else (matchGrepStage part).map (fun pr => mkGrepStage rxValid pr.1 pr.2))

/-- Embeds `applyGrepFilter`: an empty filter list accepts the line; the
loop returns false at the first exclude stage whose pattern matches or the
first include stage whose pattern does not match, and true once all stages
are exhausted. The regex test is the explicit `test` parameter. -/
def applyGrepFilter (test : String → String → Bool) (line : String) :
    List GrepStage → Bool
  | [] => true
  | f :: rest =>
    let m := test f.source line
    if f.exclude && m then false
    else if (!f.exclude) && (!m) then false
    else applyGrepFilter test line rest

/-- A single stage passes the line when an exclude stage does not match or
an include stage does match. -/
def stagePasses (test : String → String → Bool) (line : String) (f : GrepStage) : Bool :=
  if f.exclude then !(test f.source line) else test f.source line

/-- Expect the given character next. -/
def expectChar (c : Char) : List Char → Option (List Char)
  | [] => none
  | d :: rest => if d == c then some rest else none

/-- Expect exactly `n` decimal digits next. -/
def expectDigits (n : Nat) (l : List Char) : Option (List Char) :=
  if ((l.take n).length == n) && (l.take n).all Char.isDigit then some (l.drop n) else none

/-- The date core of all three timestamp regexes: four digits, dash, two
digits, dash, two digits. -/
def matchDate (l : List Char) : Option (List Char) :=
  expectDigits 4 l >>= expectChar '-' >>= expectDigits 2 >>= expectChar '-' >>= expectDigits 2

/-- The time core of all three timestamp regexes: two digits, colon, two
digits, colon, two digits. -/
def matchTime (l : List Char) : Option (List Char) :=
  expectDigits 2 l >>= expectChar ':' >>= expectDigits 2 >>= expectChar ':' >>= expectDigits 2

/-- The optional fractional-seconds group: consumed only when a dot is
directly followed by at least one digit, greedily taking all digits. -/
def skipFraction (l : List Char) : List Char :=
  match l with
  | c :: d :: rest => if (c == '.') && d.isDigit then (d :: rest).dropWhile Char.isDigit else l
  | _ => l

/-- The optional zone group of the ISO pattern: a literal Z, or a sign
followed by two digits, colon, two digits; otherwise nothing. -/
def skipZone (l : List Char) : List Char :=
  match l with
  | c :: rest =>
    if c == 'Z' then rest
    else if (c == '+') || (c == '-') then
      match expectDigits 2 rest >>= expectChar ':' >>= expectDigits 2 with
      | some r => r
      | none => l
    else l
  | [] => l

/-- Length of the anchored ISO-8601 timestamp match, when it matches. -/
def matchIso (l : List Char) : Option Nat :=
  (matchDate l >>= expectChar 'T' >>= matchTime).map
    (fun r => l.length - (skipZone (skipFraction r)).length)

/-- Length of the anchored space-delimited datetime match. -/
def matchSimple (l : List Char) : Option Nat :=
  (matchDate l >>= expectChar ' ' >>= matchTime).map
    (fun r => l.length - (skipFraction r).length)

/-- Length of the anchored bracketed datetime match; here the closing
bracket is mandatory after the optional fraction. -/
def matchBracketed (l : List Char) : Option Nat :=
  ((expectChar '[' l >>= matchDate >>= expectChar ' ' >>= matchTime).map skipFraction
      >>= expectChar ']').map (fun r => l.length - r.length)

/-- Embeds the ParsedLogLine record of the LogViewer source; absent
optional fields are `none`. -/
structure ParsedLogLine where
  raw : String
  timestamp : Option String := none
  timestampEnd : Option Nat := none
  isError : Option Bool := none
deriving Repr, DecidableEq

/-- Embeds the case-insensitive error-indicator regex test: the lowered
line contains one of the four indicator words as a substring. -/
def errorIndicator (line : String) : Bool :=
  let l := (lowerStr line).data
  hasSubstring "error".data l || hasSubstring "exception".data l ||
  hasSubstring "fail".data l || hasSubstring "fatal".data l

/-- Embeds `parseLogLine`: the three timestamp patterns are tried in
order; the first match yields the timestamp span, otherwise the error
heuristic is applied. -/
def parseLogLine (line : String) : ParsedLogLine :=
  match matchIso line.data <|> matchSimple line.data <|> matchBracketed line.data with
  | some n =>
    { raw := line, timestamp := some (String.mk (line.data.take n)), timestampEnd := some n }
  | none => { raw := line, isError := some (errorIndicator line) }

/-- Embeds the render expression `line.timestampEnd ? raw.substring(end) :
raw`, including the JavaScript falsiness of a zero span. -/
def displayContent (p : ParsedLogLine) : String :=
  match p.timestampEnd with
  | some n => if n == 0 then p.raw else String.mk (p.raw.data.drop n)
  | none => p.raw

/-- Embeds the batched flush of `scheduleBatchUpdate`: pending lines are
appended to the buffer and, when the result exceeds 50000 entries, only
the final 50000 entries are kept. -/
def flushBuffer {α : Type} (buffer pending : List α) : List α :=
  let all := buffer ++ pending
  if 50000 < all.length then all.drop (all.length - 50000) else all

end LogPipeline

/-- First binding of a key in an association list, the lookup of a
JavaScript Map whose entries are keyed by strings. -/
def findEntry {β : Type} (s : String) : List (String × β) → Option β
  | [] => none
  | p :: rest => if p.1 = s then some p.2 else findEntry s rest

/-- Removal of every binding of a key, the delete of a JavaScript Map. -/
def eraseEntry {β : Type} (s : String) : List (String × β) → List (String × β)
  | [] => []
  | p :: rest => if p.1 = s then eraseEntry s rest else p :: eraseEntry s rest

/-- Membership of a number in a list, kernel-reducible. -/
def hasNat (n : Nat) : List Nat → Bool
  | [] => false
  | m :: rest => if m = n then true else hasNat n rest

namespace ShellFilter

/-- The fixed allow-list of leading tokens of ShellFilterService. -/
def allowedCommands : List String :=
  ["grep", "awk", "sed", "cut", "sort", "uniq", "head", "tail", "jq", "tr", "wc", "cat"]

/-- Embeds `part.split(/\s+/)[0]` for an already-trimmed part: the run of
characters before the first whitespace. -/
def firstToken (part : String) : String :=
  String.mk (part.data.takeWhile (fun c => !c.isWhitespace))

/-- Embeds the chaining-character class: semicolon, ampersand, backquote
(character code 96). -/
def containsChainChar (s : String) : Bool :=
  s.data.any (fun c => c == ';' || c == '&' || c == Char.ofNat 96)

/-- Embeds the subshell pattern: a literal dollar-parenthesis pair. -/
def containsSubshell (s : String) : Bool := hasSubstring "$(".data s.data

/-- Embeds the output-redirection regex (gt, star of whitespace, one
non-pipe character).  Because every whitespace character is itself a
non-pipe character, the star can always be taken zero times, so the regex
matches exactly when some gt sign is immediately followed by a character
other than a pipe; when the following character is a pipe the star cannot
advance past it (a pipe is not whitespace), so there is no match there. -/
def hasGtNonPipe : List Char → Bool
  | c1 :: c2 :: rest => ((c1 == '>') && (c2 != '|')) || hasGtNonPipe (c2 :: rest)
  | _ => false

/-- Embeds the input-redirection pattern: any lt character. -/
def containsInRedirect (s : String) : Bool := s.data.any (fun c => c == '<')

/-- The word-character class of JavaScript regexes: ASCII letters, digits
and underscore. -/
def jsWordChar (c : Char) : Bool := c.isAlpha || c.isDigit || c == '_'

/-- Scan for a two-letter word `a`,`b` with word boundaries on both
sides: the preceding character (tracked in `prev`, none at the start) is
not a word character, and neither is the following character if any. -/
def hasWordPairAux (a b : Char) : Option Char → List Char → Bool
  | prev, c1 :: rest =>
    ((c1 == a) &&
      (match prev with | some pc => !jsWordChar pc | none => true) &&
      (match rest with
       | c2 :: rest2 =>
         (c2 == b) && (match rest2 with | c3 :: _ => !jsWordChar c3 | [] => true)
       | [] => false))
    || hasWordPairAux a b (some c1) rest
  | _, [] => false

/-- Embeds the boundary-delimited two-letter word regexes (rm, mv, cp). -/
def hasWordPair (a b : Char) (s : String) : Bool := hasWordPairAux a b none s.data

/-- Embeds the device-path pattern: the literal slash-dev-slash. -/
def containsDevPath (s : String) : Bool := hasSubstring "/dev/".data s.data

/-- Embeds the parent-traversal pattern: the literal dot-dot-slash. -/
def containsParentTraversal (s : String) : Bool := hasSubstring "../".data s.data

/-- Embeds `containsDangerousPatterns`: the nine patterns are tested in
source order and the first hit returns its message. -/
def containsDangerousPatterns (cmd : String) : Option String :=
  if containsChainChar cmd then some "명령 체이닝 문자 사용 불가"
  else if containsSubshell cmd then some "서브쉘 사용 불가"
  else if hasGtNonPipe cmd.data then some "출력 리다이렉션 사용 불가"
  else if containsInRedirect cmd then some "입력 리다이렉션 사용 불가"
  else if hasWordPair 'r' 'm' cmd then some "rm 명령 사용 불가"
  else if hasWordPair 'm' 'v' cmd then some "mv 명령 사용 불가"
  else if hasWordPair 'c' 'p' cmd then some "cp 명령 사용 불가"
  else if containsDevPath cmd then some "디바이스 접근 불가"
  else if containsParentTraversal cmd then some "상위 디렉토리 접근 불가"
  else none

/-- Result record of `validateCommand`. -/
structure ValidationResult where
  valid : Bool
  error : Option String := none
deriving Repr, DecidableEq

/-- The per-part loop of `validateCommand`: empty parts are skipped; a
part whose first token is outside the allow-list, or which contains a
dangerous pattern, fails the whole command with a message. -/
def validateParts : List String → ValidationResult
  | [] => ⟨true, none⟩
  | part :: rest =>
    if part = "" then validateParts rest
    else if !(allowedCommands.contains (firstToken part)) then
      ⟨false, some ("허용되지 않은 명령어: " ++ firstToken part)⟩
    else
      match containsDangerousPatterns part with
      | some msg => ⟨false, some msg⟩
      | none => validateParts rest

/-- The pipe-separated, trimmed parts of a command. -/
def splitParts (command : String) : List String :=
  ((splitCharsOn '|' command.data).map trimChars).map String.mk

/-- Embeds `validateCommand`: split at pipes, trim, check every part. -/
def validateCommand (command : String) : ValidationResult :=
  validateParts (splitParts command)

/-- Embeds the FilterSession record: the child process (as an abstract
process id into the spawn history) and the isAlive flag. -/
structure FilterSession where
  pid : Nat
  isAlive : Bool
deriving Repr, DecidableEq

/-- State of ShellFilterService together with the history of the child
processes it has spawned: `filters` is the session registry (the Map),
`spawned` records every spawned process with its owning sessionId, newest
first, `dead` records every process that has been killed or has exited,
and `nextPid` is a fresh process id. -/
structure SFState where
  filters : List (String × FilterSession) := []
  spawned : List (Nat × String) := []
  dead : List Nat := []
  nextPid : Nat := 0
deriving Repr, DecidableEq

/-- The service starts with no filters and no processes. -/
def initFilterState : SFState := {}

/-- Embeds `stopFilter`: if the session has a registered filter, its stdin
is ended, its process killed and the registry entry deleted; otherwise
nothing happens. -/
def stopFilter (s : String) (st : SFState) : SFState :=
  match findEntry s st.filters with
  | some f => { st with filters := eraseEntry s st.filters, dead := f.pid :: st.dead }
  | none => st

/-- Result record of `startFilter`. -/
structure StartResult where
  success : Bool
  error : Option String := none
deriving Repr, DecidableEq

/-- Embeds `startFilter` along the non-throwing spawn path: any previous
filter of the session is stopped first; an empty (after trim) command and
a command failing validation return failure without spawning; otherwise a
fresh process is spawned and registered as the session's live filter. -/
def startFilter (s : String) (command : String) (st : SFState) : SFState × StartResult :=
  let st1 := stopFilter s st
  if trimStr command = "" then (st1, ⟨false, some "명령어가 비어있습니다"⟩)
  else
    let v := validateCommand command
    if !v.valid then (st1, ⟨false, v.error⟩)
    else
      (({ filters := (s, ⟨st1.nextPid, true⟩) :: st1.filters,
          spawned := (st1.nextPid, s) :: st1.spawned,
          dead := st1.dead,
          nextPid := st1.nextPid + 1 } : SFState), ⟨true, none⟩)

/-- Embeds the exit event of a spawned process: the process is no longer
running, and the handler clears the isAlive flag of whatever filter is
currently registered under the closure's sessionId. -/
def procExit (s : String) (pid : Nat) (st : SFState) : SFState :=
  { st with
    dead := pid :: st.dead,
    filters := st.filters.map (fun p => if p.1 = s then (p.1, ⟨p.2.pid, false⟩) else p) }

/-- The processes spawned for a session that are still running. -/
def liveProcs (s : String) (st : SFState) : List (Nat × String) :=
  st.spawned.filter (fun p => (p.2 == s) && !(hasNat p.1 st.dead))

/-- States of ShellFilterService reachable from the initial state through
its entry points and process-exit events. -/
inductive FilterReach : SFState → Prop
  | init : FilterReach initFilterState
  | start (s command : String) {st : SFState} :
      FilterReach st → FilterReach (startFilter s command st).1
  | stop (s : String) {st : SFState} : FilterReach st → FilterReach (stopFilter s st)
  | exit (s : String) (pid : Nat) {st : SFState} :
      FilterReach st → (pid, s) ∈ st.spawned → FilterReach (procExit s pid st)

end ShellFilter

namespace K8s

/-- State of the log-stream registry of K8sService together with the
history of remote streams opened so far: `logStreams` is the session
registry (the Map of abort handles), `created` records every opened
remote stream with its sessionId, newest first, `aborted` records every
stream whose abort handle has been invoked, and `nextId` is a fresh
stream id. -/
structure KState where
  logStreams : List (String × Nat) := []
  created : List (Nat × String) := []
  aborted : List Nat := []
  nextId : Nat := 0
deriving Repr, DecidableEq

/-- The service starts with no streams. -/
def initStreamState : KState := {}

/-- Embeds the successful path of `startLogStream`: a new remote stream is
opened and its abort handle stored under the sessionId, overwriting any
existing registry entry; no abort of a previous stream is performed. -/
def startLogStream (s : String) (st : KState) : KState :=
  { logStreams := (s, st.nextId) :: eraseEntry s st.logStreams,
    created := (st.nextId, s) :: st.created,
    aborted := st.aborted,
    nextId := st.nextId + 1 }

/-- Embeds `stopLogStream`: if the session has a registered stream, its
abort handle is invoked and the entry deleted; otherwise nothing. -/
def stopLogStream (s : String) (st : KState) : KState :=
  match findEntry s st.logStreams with
  | some h => { st with logStreams := eraseEntry s st.logStreams, aborted := h :: st.aborted }
  | none => st

/-- The remote streams opened for a session that have never been
aborted. -/
def activeStreams (s : String) (st : KState) : List (Nat × String) :=
  st.created.filter (fun p => (p.2 == s) && !(hasNat p.1 st.aborted))

end K8s

namespace SSHTunnel

/-- State of SSHTunnelService together with the history of tunnels it has
established: `tunnels` is the connection-id registry (the Map), `handles`
records every established tunnel (its local listener and SSH client) with
its owning connection id, newest first, `closed` records every tunnel
whose listener has been closed and client ended, and `nextHandle` is a
fresh handle. -/
structure TState where
  tunnels : List (String × Nat) := []
  handles : List (Nat × String) := []
  closed : List Nat := []
  nextHandle : Nat := 0
deriving Repr, DecidableEq

/-- The service starts with no tunnels. -/
def initTunnelState : TState := {}

/-- Embeds `closeTunnel`: if the connection id has a registered tunnel,
its listener is closed, its client ended, and the registry entry deleted;
otherwise nothing. -/
def closeTunnel (id : String) (st : TState) : TState :=
  match findEntry id st.tunnels with
  | some h => { st with tunnels := eraseEntry id st.tunnels, closed := h :: st.closed }
  | none => st

/-- Embeds `createTunnel`: an existing tunnel for the id is closed first;
then, if the SSH connection and listener bind succeed (`ok`), a new tunnel
is established and registered, and otherwise the rejected promise leaves
no new registration. -/
def createTunnel (id : String) (ok : Bool) (st : TState) : TState :=
  let st1 := if (findEntry id st.tunnels).isSome then closeTunnel id st else st
  if ok then
    { tunnels := (id, st1.nextHandle) :: eraseEntry id st1.tunnels,
      handles := (st1.nextHandle, id) :: st1.handles,
      closed := st1.closed,
      nextHandle := st1.nextHandle + 1 }
  else st1

/-- The tunnels established for a connection id whose listeners are still
open. -/
def liveListeners (id : String) (st : TState) : List (Nat × String) :=
  st.handles.filter (fun p => (p.2 == id) && !(hasNat p.1 st.closed))

/-- States of SSHTunnelService reachable from the initial state through
its entry points. -/
inductive TunnelReach : TState → Prop
  | init : TunnelReach initTunnelState
  | create (id : String) (ok : Bool) {st : TState} :
      TunnelReach st → TunnelReach (createTunnel id ok st)
  | close (id : String) {st : TState} : TunnelReach st → TunnelReach (closeTunnel id st)

end SSHTunnel

namespace ShellFilter

/-- Structural invariant of the ShellFilterService state: spawned process
ids are below the fresh counter and pairwise distinct, dead ids belong to
spawned processes, registered filters point to spawned processes of their
own session, and every still-running process of a session is exactly the
one its registry entry points to. -/
def SFInv (st : SFState) : Prop :=
  (∀ p ∈ st.spawned, p.1 < st.nextPid) ∧
  (st.spawned.map Prod.fst).Nodup ∧
  (∀ n ∈ st.dead, ∃ p ∈ st.spawned, p.1 = n) ∧
  (∀ s f, findEntry s st.filters = some f → (f.pid, s) ∈ st.spawned) ∧
  (∀ p ∈ st.spawned, hasNat p.1 st.dead = false →
      ∃ f, findEntry p.2 st.filters = some f ∧ f.pid = p.1)

end ShellFilter

namespace SSHTunnel

/-- Structural invariant of the SSHTunnelService state: established handles
are below the fresh counter and pairwise distinct, closed handles belong to
established tunnels, registered tunnels point to established handles of
their own connection id, and every still-open listener of a connection id
is exactly the one its registry entry points to. -/
def TInv (st : TState) : Prop :=
  (∀ p ∈ st.handles, p.1 < st.nextHandle) ∧
  (st.handles.map Prod.fst).Nodup ∧
  (∀ n ∈ st.closed, ∃ p ∈ st.handles, p.1 = n) ∧
  (∀ id h, findEntry id st.tunnels = some h → (h, id) ∈ st.handles) ∧
  (∀ p ∈ st.handles, hasNat p.1 st.closed = false →
      findEntry p.2 st.tunnels = some p.1)

end SSHTunnel

theorem hasNat_iff {n : Nat} {l : List Nat} : hasNat n l = true ↔ n ∈ l := by
  induction l with
  | nil => simp [hasNat]
  | cons m rest ih =>
    by_cases h : m = n
    · subst h
      simp [hasNat]
    · simp only [hasNat, if_neg h, List.mem_cons, ih]
      constructor
      · exact Or.inr
      · rintro (rfl | hmem)
        · exact absurd rfl h
        · exact hmem

theorem findEntry_mem {β : Type} {s : String} {v : β} {l : List (String × β)}
    (h : findEntry s l = some v) : (s, v) ∈ l := by
  induction l with
  | nil => simp [findEntry] at h
  | cons p rest ih =>
    unfold findEntry at h
    by_cases hp : p.1 = s
    · rw [if_pos hp] at h
      obtain rfl : p.2 = v := Option.some.inj h
      subst hp
      exact List.mem_cons_self _ _
    · rw [if_neg hp] at h
      exact List.mem_cons_of_mem _ (ih h)

theorem findEntry_eraseEntry_self {β : Type} (s : String) (l : List (String × β)) :
    findEntry s (eraseEntry s l) = none := by
  induction l with
  | nil => rfl
  | cons p rest ih =>
    by_cases hp : p.1 = s
    · simp [eraseEntry, hp, ih]
    · simp [eraseEntry, hp, findEntry, ih]

theorem findEntry_cons {β : Type} (p : String × β) (rest : List (String × β)) (t : String) :
    findEntry t (p :: rest) = if p.1 = t then some p.2 else findEntry t rest := rfl

theorem eraseEntry_cons {β : Type} (p : String × β) (rest : List (String × β)) (s : String) :
    eraseEntry s (p :: rest) =
      if p.1 = s then eraseEntry s rest else p :: eraseEntry s rest := rfl

theorem findEntry_eraseEntry_ne {β : Type} {s t : String} (h : t ≠ s)
    (l : List (String × β)) : findEntry t (eraseEntry s l) = findEntry t l := by
  induction l with
  | nil => rfl
  | cons p rest ih =>
    rw [eraseEntry_cons]
    by_cases hp : p.1 = s
    · have hnt : ¬ p.1 = t := by
        intro he
        exact h (by rw [← he, hp])
      rw [if_pos hp, ih, findEntry_cons, if_neg hnt]
    · rw [if_neg hp, findEntry_cons, findEntry_cons]
      by_cases ht : p.1 = t
      · rw [if_pos ht, if_pos ht]
      · rw [if_neg ht, if_neg ht]
        exact ih

theorem mem_eraseEntry {β : Type} {p : String × β} {s : String} {l : List (String × β)}
    (h : p ∈ eraseEntry s l) : p ∈ l := by
  induction l with
  | nil => simp [eraseEntry] at h
  | cons q rest ih =>
    by_cases hq : q.1 = s
    · simp only [eraseEntry, if_pos hq] at h
      exact List.mem_cons_of_mem _ (ih h)
    · simp only [eraseEntry, if_neg hq, List.mem_cons] at h
      rcases h with h | h
      · exact h ▸ List.mem_cons_self _ _
      · exact List.mem_cons_of_mem _ (ih h)

namespace LogPipeline

theorem flushBuffer_length_le {α : Type} (buffer pending : List α) :
    (flushBuffer buffer pending).length ≤ 50000 := by
  unfold flushBuffer
  by_cases h : 50000 < (buffer ++ pending).length
  · simp only [if_pos h, List.length_drop]
    omega
  · simp only [if_neg h]
    omega

theorem flushBuffer_suffix {α : Type} (buffer pending : List α) :
    flushBuffer buffer pending <:+ buffer ++ pending := by
  unfold flushBuffer
  by_cases h : 50000 < (buffer ++ pending).length
  · simp only [if_pos h]
    exact List.drop_suffix _ _
  · simp only [if_neg h]
    exact List.suffix_refl _

theorem foldl_flushBuffer_length_le {α : Type} (chunks : List (List α)) (init : List α)
    (h : init.length ≤ 50000) : (chunks.foldl flushBuffer init).length ≤ 50000 := by
  induction chunks generalizing init with
  | nil => exact h
  | cons c cs ih => exact ih _ (flushBuffer_length_le init c)

theorem suffix_append_same {α : Type} {a b : List α} (h : a <:+ b) (x : List α) :
    a ++ x <:+ b ++ x := by
  obtain ⟨t, ht⟩ := h
  exact ⟨t, by rw [← ht, List.append_assoc]⟩

theorem foldl_flushBuffer_suffix {α : Type} (chunks : List (List α)) (init : List α) :
    chunks.foldl flushBuffer init <:+ init ++ chunks.flatten := by
  induction chunks generalizing init with
  | nil => simp
  | cons c cs ih =>
    have h1 := ih (flushBuffer init c)
    have h2 := suffix_append_same (flushBuffer_suffix init c) cs.flatten
    simp only [List.foldl_cons, List.flatten_cons]
    rw [← List.append_assoc]
    exact h1.trans h2

/-- C2: after each batched flush the buffer holds at most 50000 entries;
the flushed buffer is a suffix of the old buffer followed by the pending
lines (so surviving entries keep their append order), on overflow exactly
the last 50000 appended entries are kept, and any sequence of flushed
chunks starting from the empty buffer leaves at most 50000 entries, again
a suffix (in order) of everything appended. -/
theorem c2_ring_buffer_bound {α : Type} (buffer pending : List α)
    (hover : 50000 < (buffer ++ pending).length) (chunks : List (List α)) :
    (flushBuffer buffer pending).length ≤ 50000
  ∧ flushBuffer buffer pending <:+ buffer ++ pending
  ∧ flushBuffer buffer pending =
      (buffer ++ pending).drop ((buffer ++ pending).length - 50000)
  ∧ (flushBuffer buffer pending).length = 50000
  ∧ (chunks.foldl flushBuffer []).length ≤ 50000
  ∧ chunks.foldl flushBuffer [] <:+ chunks.flatten := by
  refine ⟨flushBuffer_length_le _ _, flushBuffer_suffix _ _, ?_, ?_, ?_, ?_⟩
  · simp only [flushBuffer]
    rw [if_pos hover]
  · simp only [flushBuffer]
    rw [if_pos hover, List.length_drop]
    omega
  · exact foldl_flushBuffer_length_le _ _ (by simp)
  · simpa using foldl_flushBuffer_suffix chunks []

/-- Witness for C2 at a concrete overflowing flush. -/
theorem c2_ring_buffer_bound_witness :
    (50000 < ((List.replicate 50000 0 : List Nat) ++ [1]).length)
  ∧ (flushBuffer (List.replicate 50000 (0 : Nat)) [1]).length = 50000 := by
  have h : 50000 < ((List.replicate 50000 0 : List Nat) ++ [1]).length := by
    rw [List.length_append, List.length_replicate, List.length_singleton]
    omega
  exact ⟨h, (c2_ring_buffer_bound (List.replicate 50000 0) [1] h []).2.2.2.1⟩

theorem applyGrepFilter_eq_all (test : String → String → Bool) (line : String)
    (filters : List GrepStage) :
    applyGrepFilter test line filters = filters.all (stagePasses test line) := by
  induction filters with
  | nil => rfl
  | cons f rest ih =>
    cases hex : f.exclude <;> cases hm : test f.source line <;>
      simp [applyGrepFilter, stagePasses, hex, hm, ih]

/-- C3: the filter loop accepts a line exactly when every stage passes, in
the AND sense; an exclude stage passes when its pattern does not match and
a normal stage when it does; the empty list accepts everything; and the
result is decided at the first failing stage, so stages after it are
irrelevant. -/
theorem c3_apply_grep_filter (test : String → String → Bool) (line : String) :
    (∀ filters : List GrepStage,
        applyGrepFilter test line filters = filters.all (stagePasses test line))
  ∧ applyGrepFilter test line [] = true
  ∧ (∀ (pre suf : List GrepStage) (f : GrepStage),
        (∀ g ∈ pre, stagePasses test line g = true) → stagePasses test line f = false →
        applyGrepFilter test line (pre ++ f :: suf) = false)
  ∧ (∀ (pre suf1 suf2 : List GrepStage) (f : GrepStage),
        stagePasses test line f = false →
        applyGrepFilter test line (pre ++ f :: suf1) =
          applyGrepFilter test line (pre ++ f :: suf2)) := by
  refine ⟨applyGrepFilter_eq_all test line, rfl, ?_, ?_⟩
  · intro pre suf f _ hf
    rw [applyGrepFilter_eq_all]
    simp [List.all_append, hf]
  · intro pre suf1 suf2 f hf
    rw [applyGrepFilter_eq_all, applyGrepFilter_eq_all]
    simp [List.all_append, hf]

/-- Witness for C3 at a concrete test function, line and stage list. -/
theorem c3_apply_grep_filter_witness :
    (∀ g ∈ ([⟨"a", false⟩] : List GrepStage),
        stagePasses (fun p l => hasSubstring p.data l.data) "abc" g = true)
  ∧ stagePasses (fun p l => hasSubstring p.data l.data) "abc" ⟨"z", false⟩ = false
  ∧ applyGrepFilter (fun p l => hasSubstring p.data l.data) "abc"
      ([⟨"a", false⟩] ++ ⟨"z", false⟩ :: [⟨"b", true⟩]) = false := by
  refine ⟨by decide, by decide, ?_⟩
  exact (c3_apply_grep_filter (fun p l => hasSubstring p.data l.data) "abc").2.2.1
    [⟨"a", false⟩] [⟨"b", true⟩] ⟨"z", false⟩ (by decide) (by decide)

end LogPipeline

namespace LogPipeline

/-- C7: line classification tries the ISO, space-delimited and bracketed
timestamp patterns in that order; the first match fixes the timestamp and
its span, the payload is the remainder after the span, and only when no
pattern matches is the case-insensitive error heuristic applied; together
with the two concrete instances named by the claim. -/
theorem c7_parse_log_line :
    (∀ (line : String) (n : Nat), matchIso line.data = some n →
        parseLogLine line = ⟨line, some (String.mk (line.data.take n)), some n, none⟩)
  ∧ (∀ (line : String) (n : Nat), matchIso line.data = none →
        matchSimple line.data = some n →
        parseLogLine line = ⟨line, some (String.mk (line.data.take n)), some n, none⟩)
  ∧ (∀ (line : String) (n : Nat), matchIso line.data = none →
        matchSimple line.data = none → matchBracketed line.data = some n →
        parseLogLine line = ⟨line, some (String.mk (line.data.take n)), some n, none⟩)
  ∧ (∀ line : String, matchIso line.data = none → matchSimple line.data = none →
        matchBracketed line.data = none →
        parseLogLine line = ⟨line, none, none, some (errorIndicator line)⟩)
  ∧ parseLogLine "2024-01-01T12:00:00.123Z something happened" =
      ⟨"2024-01-01T12:00:00.123Z something happened", some "2024-01-01T12:00:00.123Z",
        some 24, none⟩
  ∧ displayContent (parseLogLine "2024-01-01T12:00:00.123Z something happened") =
      " something happened"
  ∧ parseLogLine "Exception in thread main" =
      ⟨"Exception in thread main", none, none, some true⟩ := by
  refine ⟨?_, ?_, ?_, ?_, by decide, by decide, by decide⟩
  · intro line n h1
    simp [parseLogLine, h1]
  · intro line n h1 h2
    simp [parseLogLine, h1, h2]
  · intro line n h1 h2 h3
    simp [parseLogLine, h1, h2, h3]
  · intro line h1 h2 h3
    simp [parseLogLine, h1, h2, h3]

/-- Witness for C7 at the claim's concrete ISO-stamped line. -/
theorem c7_parse_log_line_witness :
    matchIso "2024-01-01T12:00:00.123Z something happened".data = some 24
  ∧ parseLogLine "2024-01-01T12:00:00.123Z something happened" =
      ⟨"2024-01-01T12:00:00.123Z something happened",
        some (String.mk ("2024-01-01T12:00:00.123Z something happened".data.take 24)),
        some 24, none⟩ :=
  ⟨by decide,
   c7_parse_log_line.1 "2024-01-01T12:00:00.123Z something happened" 24 (by decide)⟩

/-- C8: the pipeline parse is total and permissive: every produced stage
comes from a pipe-separated, trimmed part that matches the stage grammar
(all other parts contribute nothing), a pattern rejected by the regex
compiler is replaced by its metacharacter-escaped literal, and a concrete
expression with an invalid-regex stage and an unrecognized stage parses to
exactly the escaped-literal stage. -/
theorem c8_permissive_parse :
    (∀ (rxValid : String → Bool) (filter : String),
        ∀ s ∈ parseGrepPipeline rxValid filter,
          ∃ part ∈ ((splitCharsOn '|' filter.data).map trimChars).map String.mk,
            ∃ ex pat, matchGrepStage part = some (ex, pat) ∧ s = mkGrepStage rxValid ex pat)
  ∧ (∀ (rxValid : String → Bool) (ex : Bool) (pat : String), rxValid pat = false →
        mkGrepStage rxValid ex pat = ⟨escapeRegex pat, ex⟩)
  ∧ parseGrepPipeline (fun _ => false) "grep [a | foo bar" = [⟨"\\[a", false⟩]
  ∧ escapeRegex "[a" = "\\[a" := by
  refine ⟨?_, ?_, by decide, by decide⟩
  · intro rxValid filter s hs
    unfold parseGrepPipeline at hs
    by_cases hempty : trimStr filter = ""
    · rw [if_pos hempty] at hs
      simp at hs
    · rw [if_neg hempty] at hs
      rw [List.mem_filterMap] at hs
      obtain ⟨part, hpart, hf⟩ := hs
      refine ⟨part, hpart, ?_⟩
      by_cases hpe : part = ""
      · rw [if_pos hpe] at hf
        exact absurd hf (by simp)
      · rw [if_neg hpe] at hf
        rw [Option.map_eq_some'] at hf
        obtain ⟨pr, hm, hmk⟩ := hf
        exact ⟨pr.1, pr.2, hm, hmk.symm⟩
  · intro rxValid ex pat h
    simp [mkGrepStage, h]

/-- Witness for C8 at the concrete invalid-regex expression. -/
theorem c8_permissive_parse_witness :
    (∃ part ∈ ((splitCharsOn '|' "grep [a | foo bar".data).map trimChars).map String.mk,
        ∃ ex pat, matchGrepStage part = some (ex, pat) ∧
          (⟨"\\[a", false⟩ : GrepStage) = mkGrepStage (fun _ => false) ex pat)
  ∧ mkGrepStage (fun _ => false) false "[a" = ⟨"\\[a", false⟩ :=
  ⟨c8_permissive_parse.1 (fun _ => false) "grep [a | foo bar" ⟨"\\[a", false⟩ (by decide),
   c8_permissive_parse.2.1 (fun _ => false) false "[a" rfl⟩

/-- C10 counterexample: for the expression grep-quote-a-pipe-b-quote the
first fragment does match the stage grammar (through the bare-word
alternative, keeping the opening quote in the pattern), so the parse is a
one-stage list, not the empty list the claim asserts. -/
theorem c10_counterexample :
    parseGrepPipeline (fun _ => true) "grep \"a|b\"" = [⟨"\"a", false⟩]
  ∧ parseGrepPipeline (fun _ => true) "grep \"a|b\"" ≠ []
  ∧ matchGrepStage "grep \"a" = some (false, "\"a") := by
  exact ⟨by decide, by decide, by decide⟩

/-- C10 as amended: the split happens at every pipe, quoted or not; for
the quoted-pipe expression the first fragment parses as a bare-word stage
whose pattern keeps the opening quote and the second fragment is dropped;
expressions where no fragment matches (for instance when every fragment
contains an internal space) do parse to the empty list, and the empty
filter list accepts every line. -/
theorem c10_split_in_quotes :
    (∀ rxValid : String → Bool,
        parseGrepPipeline rxValid "grep \"a|b\"" = [mkGrepStage rxValid false "\"a"])
  ∧ (∀ rxValid : String → Bool, parseGrepPipeline rxValid "grep \"a b|c d\"" = [])
  ∧ (∀ (test : String → String → Bool) (line : String), applyGrepFilter test line [] = true)
  ∧ splitCharsOn '|' "grep \"a|b\"".data = ["grep \"a".data, "b\"".data]
  ∧ matchGrepStage "b\"" = none := by
  exact ⟨fun rxValid => rfl, fun rxValid => rfl, fun test line => rfl, by decide, by decide⟩

end LogPipeline

theorem hasNat_cons (n m : Nat) (l : List Nat) :
    hasNat n (m :: l) = if m = n then true else hasNat n l := rfl

theorem pairList_length_le_one {l : List (Nat × String)} (c : Nat)
    (hnd : (l.map Prod.fst).Nodup) (hall : ∀ p ∈ l, p.1 = c) : l.length ≤ 1 := by
  match l with
  | [] => simp
  | [a] => simp
  | a :: b :: t =>
    exfalso
    have ha := hall a (List.mem_cons_self _ _)
    have hb := hall b (List.mem_cons_of_mem _ (List.mem_cons_self _ _))
    rw [List.map_cons, List.map_cons, List.nodup_cons] at hnd
    exact hnd.1 (by rw [ha, ← hb]; exact List.mem_cons_self _ _)

namespace ShellFilter

theorem stopFilter_of_none {st : SFState} {s : String}
    (h : findEntry s st.filters = none) : stopFilter s st = st := by
  unfold stopFilter
  rw [h]

theorem stopFilter_of_some {st : SFState} {s : String} {f : FilterSession}
    (h : findEntry s st.filters = some f) :
    stopFilter s st =
      { st with filters := eraseEntry s st.filters, dead := f.pid :: st.dead } := by
  unfold stopFilter
  rw [h]

theorem stopFilter_spawned (s : String) (st : SFState) :
    (stopFilter s st).spawned = st.spawned := by
  cases h : findEntry s st.filters
  · rw [stopFilter_of_none h]
  · rw [stopFilter_of_some h]

theorem stopFilter_nextPid (s : String) (st : SFState) :
    (stopFilter s st).nextPid = st.nextPid := by
  cases h : findEntry s st.filters
  · rw [stopFilter_of_none h]
  · rw [stopFilter_of_some h]

theorem stopFilter_findEntry_self (s : String) (st : SFState) :
    findEntry s (stopFilter s st).filters = none := by
  cases h : findEntry s st.filters
  · rw [stopFilter_of_none h]
    exact h
  · rw [stopFilter_of_some h]
    exact findEntry_eraseEntry_self s st.filters

theorem validateParts_invalid {parts : List String}
    (h : ∃ part ∈ parts, part ≠ "" ∧
        (allowedCommands.contains (firstToken part) = false ∨
         containsDangerousPatterns part ≠ none)) :
    (validateParts parts).valid = false := by
  induction parts with
  | nil =>
    obtain ⟨part, hmem, _⟩ := h
    simp at hmem
  | cons part rest ih =>
    obtain ⟨w, hw, hprop⟩ := h
    unfold validateParts
    by_cases hpe : part = ""
    · rw [if_pos hpe]
      apply ih
      rcases List.mem_cons.mp hw with rfl | hwrest
      · exact absurd hpe hprop.1
      · exact ⟨w, hwrest, hprop⟩
    · rw [if_neg hpe]
      cases hal : allowedCommands.contains (firstToken part) with
      | false => simp
      | true =>
        cases hd : containsDangerousPatterns part with
        | some msg => simp [hal, hd]
        | none =>
          simp only [hal, hd, Bool.not_true, Bool.false_eq_true, if_false]
          apply ih
          rcases List.mem_cons.mp hw with rfl | hwrest
          · rcases hprop.2 with hc | hdng
            · rw [hal] at hc
              exact absurd hc (by simp)
            · exact absurd hd hdng
          · exact ⟨w, hwrest, hprop⟩

theorem validateParts_error_of_invalid {parts : List String}
    (h : (validateParts parts).valid = false) :
    ∃ msg, (validateParts parts).error = some msg := by
  induction parts with
  | nil => simp [validateParts] at h
  | cons part rest ih =>
    unfold validateParts at h ⊢
    by_cases hpe : part = ""
    · rw [if_pos hpe] at h ⊢
      exact ih h
    · rw [if_neg hpe] at h ⊢
      cases hal : allowedCommands.contains (firstToken part) with
      | false => exact ⟨"허용되지 않은 명령어: " ++ firstToken part, by simp⟩
      | true =>
        cases hd : containsDangerousPatterns part with
        | some msg => exact ⟨msg, by simp⟩
        | none =>
          rw [hal, hd] at h
          simp at h ⊢
          exact ih h

theorem startFilter_fst_of_fail {st : SFState} {s command : String}
    (h : (startFilter s command st).2.success = false) :
    (startFilter s command st).1 = stopFilter s st := by
  unfold startFilter at h ⊢
  by_cases h1 : trimStr command = ""
  · simp [h1]
  · simp only [if_neg h1] at h ⊢
    cases hv : (validateCommand command).valid with
    | false => simp [hv]
    | true => simp [hv] at h

/-- C4: a filter command with a stage whose first token is outside the
allow-list or which contains a dangerous pattern is rejected: startFilter
returns failure with a message and spawns no child process. -/
theorem c4_invalid_filter_rejected (st : SFState) (s command : String)
    (h : ∃ part ∈ splitParts command, part ≠ "" ∧
        (allowedCommands.contains (firstToken part) = false ∨
         containsDangerousPatterns part ≠ none)) :
    (startFilter s command st).2.success = false
  ∧ (∃ msg, (startFilter s command st).2.error = some msg)
  ∧ (startFilter s command st).1.spawned = st.spawned := by
  have hv : (validateCommand command).valid = false := validateParts_invalid h
  have hfail : (startFilter s command st).2.success = false := by
    unfold startFilter
    by_cases h1 : trimStr command = ""
    · simp [h1]
    · simp [h1, hv]
  refine ⟨hfail, ?_, ?_⟩
  · by_cases h1 : trimStr command = ""
    · refine ⟨"명령어가 비어있습니다", ?_⟩
      unfold startFilter
      simp [h1]
    · obtain ⟨msg, hmsg⟩ : ∃ msg, (validateCommand command).error = some msg :=
        validateParts_error_of_invalid hv
      refine ⟨msg, ?_⟩
      unfold startFilter
      simp [h1, hv, hmsg]
  · rw [startFilter_fst_of_fail hfail]
    exact stopFilter_spawned s st

/-- Witness for C4 at the disallowed command of the spec's example. -/
theorem c4_invalid_filter_rejected_witness :
    (∃ part ∈ splitParts "rm -rf /", part ≠ "" ∧
        (allowedCommands.contains (firstToken part) = false ∨
         containsDangerousPatterns part ≠ none))
  ∧ (startFilter "A" "rm -rf /" initFilterState).2.success = false
  ∧ (startFilter "A" "rm -rf /" initFilterState).1.spawned = initFilterState.spawned :=
  ⟨by decide, (c4_invalid_filter_rejected initFilterState "A" "rm -rf /" (by decide)).1,
   (c4_invalid_filter_rejected initFilterState "A" "rm -rf /" (by decide)).2.2⟩

end ShellFilter

namespace ShellFilter

theorem sfInv_init : SFInv initFilterState := by
  refine ⟨?_, ?_, ?_, ?_, ?_⟩
  · intro p hp
    simp [initFilterState] at hp
  · simp [initFilterState]
  · intro n hn
    simp [initFilterState] at hn
  · intro s f hf
    simp [initFilterState, findEntry] at hf
  · intro p hp
    simp [initFilterState] at hp

theorem liveProcs_eq_nil_of_none {st : SFState} {s : String} (hInv : SFInv st)
    (h : findEntry s st.filters = none) : liveProcs s st = [] := by
  unfold liveProcs
  rw [List.filter_eq_nil_iff]
  intro p hp hpred
  rw [Bool.and_eq_true, beq_iff_eq, Bool.not_eq_true'] at hpred
  obtain ⟨hps, hdead⟩ := hpred
  obtain ⟨f, hf, _⟩ := hInv.2.2.2.2 p hp hdead
  rw [hps, h] at hf
  exact Option.noConfusion hf

theorem liveProcs_stopFilter {st : SFState} (hInv : SFInv st) (s : String) :
    liveProcs s (stopFilter s st) = [] := by
  cases h : findEntry s st.filters with
  | none =>
    rw [stopFilter_of_none h]
    exact liveProcs_eq_nil_of_none hInv h
  | some f =>
    rw [stopFilter_of_some h]
    unfold liveProcs
    rw [List.filter_eq_nil_iff]
    intro p hp hpred
    rw [Bool.and_eq_true, beq_iff_eq, Bool.not_eq_true'] at hpred
    obtain ⟨hps, hdead⟩ := hpred
    rw [hasNat_cons] at hdead
    by_cases hfp : f.pid = p.1
    · rw [if_pos hfp] at hdead
      exact absurd hdead (by simp)
    · rw [if_neg hfp] at hdead
      obtain ⟨f', hf', hfp'⟩ := hInv.2.2.2.2 p hp hdead
      rw [hps, h] at hf'
      obtain rfl := Option.some.inj hf'
      exact hfp hfp'

theorem sfInv_stop {st : SFState} (hInv : SFInv st) (s : String) :
    SFInv (stopFilter s st) := by
  cases h : findEntry s st.filters with
  | none =>
    rw [stopFilter_of_none h]
    exact hInv
  | some f =>
    have hreg := hInv.2.2.2.1 s f h
    obtain ⟨h1, h2, h3, h4, h5⟩ := hInv
    rw [stopFilter_of_some h]
    refine ⟨h1, h2, ?_, ?_, ?_⟩
    · intro n hn
      rcases List.mem_cons.mp hn with rfl | hn'
      · exact ⟨(f.pid, s), hreg, rfl⟩
      · exact h3 n hn'
    · intro t g hg
      by_cases hts : t = s
      · subst hts
        rw [findEntry_eraseEntry_self] at hg
        exact absurd hg (by simp)
      · rw [findEntry_eraseEntry_ne hts] at hg
        exact h4 t g hg
    · intro p hp hdead
      rw [hasNat_cons] at hdead
      by_cases hfp : f.pid = p.1
      · rw [if_pos hfp] at hdead
        exact absurd hdead (by simp)
      · rw [if_neg hfp] at hdead
        obtain ⟨f', hf', hfp'⟩ := h5 p hp hdead
        by_cases hps : p.2 = s
        · rw [hps, h] at hf'
          obtain rfl := Option.some.inj hf'
          exact absurd hfp' hfp
        · rw [findEntry_eraseEntry_ne hps]
          exact ⟨f', hf', hfp'⟩

theorem sfInv_register (st1 : SFState) (hInv : SFInv st1) (s : String)
    (hlive : liveProcs s st1 = []) :
    SFInv ⟨(s, ⟨st1.nextPid, true⟩) :: st1.filters, (st1.nextPid, s) :: st1.spawned,
           st1.dead, st1.nextPid + 1⟩ := by
  obtain ⟨h1, h2, h3, h4, h5⟩ := hInv
  refine ⟨?_, ?_, ?_, ?_, ?_⟩
  · intro p hp
    rcases List.mem_cons.mp hp with rfl | hp'
    · exact Nat.lt_succ_self _
    · exact Nat.lt_succ_of_lt (h1 p hp')
  · rw [List.map_cons, List.nodup_cons]
    refine ⟨?_, h2⟩
    intro hmem
    rw [List.mem_map] at hmem
    obtain ⟨p, hp, hpe⟩ := hmem
    have := h1 p hp
    omega
  · intro n hn
    obtain ⟨p, hp, hpn⟩ := h3 n hn
    exact ⟨p, List.mem_cons_of_mem _ hp, hpn⟩
  · intro t g hg
    rw [findEntry_cons] at hg
    by_cases hts : s = t
    · rw [if_pos hts] at hg
      obtain rfl := Option.some.inj hg
      subst hts
      exact List.mem_cons_self _ _
    · rw [if_neg hts] at hg
      exact List.mem_cons_of_mem _ (h4 t g hg)
  · intro p hp hdead
    rcases List.mem_cons.mp hp with rfl | hp'
    · refine ⟨⟨st1.nextPid, true⟩, ?_, rfl⟩
      rw [findEntry_cons, if_pos rfl]
    · by_cases hps : p.2 = s
      · exfalso
        have hpl : p ∈ liveProcs s st1 := by
          unfold liveProcs
          rw [List.mem_filter]
          refine ⟨hp', ?_⟩
          rw [Bool.and_eq_true, beq_iff_eq, Bool.not_eq_true']
          exact ⟨hps, hdead⟩
        rw [hlive] at hpl
        simp at hpl
      · obtain ⟨f, hf, hfp⟩ := h5 p hp' hdead
        refine ⟨f, ?_, hfp⟩
        rw [findEntry_cons, if_neg (fun he => hps he.symm)]
        exact hf

theorem startFilter_of_success {st : SFState} {s command : String}
    (hsucc : (startFilter s command st).2.success = true) :
    (startFilter s command st).1 =
      ⟨(s, ⟨(stopFilter s st).nextPid, true⟩) :: (stopFilter s st).filters,
       ((stopFilter s st).nextPid, s) :: (stopFilter s st).spawned,
       (stopFilter s st).dead, (stopFilter s st).nextPid + 1⟩ := by
  unfold startFilter at hsucc ⊢
  by_cases h1 : trimStr command = ""
  · simp [h1] at hsucc
  · simp only [if_neg h1] at hsucc ⊢
    cases hv : (validateCommand command).valid with
    | false => simp [hv] at hsucc
    | true => simp [hv]

theorem sfInv_start {st : SFState} (hInv : SFInv st) (s command : String) :
    SFInv (startFilter s command st).1 := by
  cases hsucc : (startFilter s command st).2.success with
  | false =>
    rw [startFilter_fst_of_fail hsucc]
    exact sfInv_stop hInv s
  | true =>
    rw [startFilter_of_success hsucc]
    exact sfInv_register (stopFilter s st) (sfInv_stop hInv s) s (liveProcs_stopFilter hInv s)

theorem findEntry_procExit (l : List (String × FilterSession)) (s t : String) :
    findEntry t (l.map (fun p => if p.1 = s then (p.1, ⟨p.2.pid, false⟩) else p)) =
      (findEntry t l).map (fun f => if t = s then ⟨f.pid, false⟩ else f) := by
  induction l with
  | nil => rfl
  | cons p rest ih =>
    simp only [List.map_cons, findEntry_cons]
    by_cases hp : p.1 = s <;> by_cases hpt : p.1 = t
    · have hts : t = s := by rw [← hpt, hp]
      simp [hp, hpt, hts]
    · have hst : ¬ s = t := fun he => hpt (by rw [hp, he])
      simp [hp, hpt, hst, ih]
    · have hts : ¬ t = s := fun he => hp (by rw [hpt, he])
      simp [hp, hpt, hts]
    · simp [hp, hpt, ih]

theorem sfInv_exit {st : SFState} {pid : Nat} {s : String}
    (hmem : (pid, s) ∈ st.spawned) (hInv : SFInv st) : SFInv (procExit s pid st) := by
  obtain ⟨h1, h2, h3, h4, h5⟩ := hInv
  unfold procExit
  refine ⟨h1, h2, ?_, ?_, ?_⟩
  · intro n hn
    rcases List.mem_cons.mp hn with rfl | hn'
    · exact ⟨(n, s), hmem, rfl⟩
    · exact h3 n hn'
  · intro t g hg
    rw [findEntry_procExit, Option.map_eq_some'] at hg
    obtain ⟨f, hf, hfg⟩ := hg
    have hmem' := h4 t f hf
    by_cases hts : t = s
    · rw [if_pos hts] at hfg
      rw [← hfg]
      exact hmem'
    · rw [if_neg hts] at hfg
      rw [← hfg]
      exact hmem'
  · intro p hp hdead
    rw [hasNat_cons] at hdead
    by_cases hpp : pid = p.1
    · rw [if_pos hpp] at hdead
      exact absurd hdead (by simp)
    · rw [if_neg hpp] at hdead
      obtain ⟨f, hf, hfp⟩ := h5 p hp hdead
      refine ⟨(if p.2 = s then ⟨f.pid, false⟩ else f), ?_, ?_⟩
      · rw [findEntry_procExit, hf, Option.map_some']
      · by_cases hps : p.2 = s <;> simp [hps, hfp]

theorem sfReach_inv {st : SFState} (hr : FilterReach st) : SFInv st := by
  induction hr with
  | init => exact sfInv_init
  | start s command hr ih => exact sfInv_start ih s command
  | stop s hr ih => exact sfInv_stop ih s
  | exit s pid hr hmem ih => exact sfInv_exit hmem ih

/-- C9: startFilter stops any previously live filter for the session
before validating the new command, so after a failed start (empty or
rejected command) the session has no registered filter, a previously
registered filter's process has been killed, and no live filter process
remains for the session. -/
theorem c9_failed_start_clears_filter (st : SFState) (s command : String)
    (hfail : (startFilter s command st).2.success = false) :
    findEntry s (startFilter s command st).1.filters = none
  ∧ (∀ f, findEntry s st.filters = some f →
        hasNat f.pid (startFilter s command st).1.dead = true)
  ∧ (FilterReach st → liveProcs s (startFilter s command st).1 = []) := by
  have hst := startFilter_fst_of_fail hfail
  rw [hst]
  refine ⟨stopFilter_findEntry_self s st, ?_,
    fun hr => liveProcs_stopFilter (sfReach_inv hr) s⟩
  intro f hf
  rw [stopFilter_of_some hf, hasNat_cons]
  simp

/-- Witness for C9: a session with a live filter, restarted with the
disallowed command rm. -/
theorem c9_failed_start_clears_filter_witness :
    ((startFilter "A" "rm" (startFilter "A" "grep x" initFilterState).1).2.success = false)
  ∧ findEntry "A"
      (startFilter "A" "rm" (startFilter "A" "grep x" initFilterState).1).1.filters = none
  ∧ liveProcs "A" (startFilter "A" "rm" (startFilter "A" "grep x" initFilterState).1).1 = [] := by
  have hr : FilterReach (startFilter "A" "grep x" initFilterState).1 :=
    FilterReach.start "A" "grep x" FilterReach.init
  have hfail :
      (startFilter "A" "rm" (startFilter "A" "grep x" initFilterState).1).2.success = false := by
    decide
  exact ⟨hfail, (c9_failed_start_clears_filter _ "A" "rm" hfail).1,
    (c9_failed_start_clears_filter _ "A" "rm" hfail).2.2 hr⟩

theorem liveProcs_len_le_one {st : SFState} (hInv : SFInv st) (s : String) :
    (liveProcs s st).length ≤ 1 := by
  cases h : findEntry s st.filters with
  | none =>
    rw [liveProcs_eq_nil_of_none hInv h]
    simp
  | some f =>
    apply pairList_length_le_one f.pid
    · exact List.Nodup.sublist ((List.filter_sublist _).map Prod.fst) hInv.2.1
    · intro p hp
      unfold liveProcs at hp
      rw [List.mem_filter] at hp
      obtain ⟨hmem, hpred⟩ := hp
      rw [Bool.and_eq_true, beq_iff_eq, Bool.not_eq_true'] at hpred
      obtain ⟨f', hf', hfp⟩ := hInv.2.2.2.2 p hmem hpred.2
      rw [hpred.1, h] at hf'
      obtain rfl := Option.some.inj hf'
      exact hfp.symm

/-- C5: in every reachable state at most one live filter process exists
per sessionId; a successful restart leaves exactly the newly spawned
process live for the session and has killed the previously registered
one; stopFilter is idempotent and a no-op for an unknown sessionId. -/
theorem c5_single_live_filter :
    (∀ st : SFState, FilterReach st → ∀ s : String, (liveProcs s st).length ≤ 1)
  ∧ (∀ (st : SFState) (s command : String), FilterReach st →
        (startFilter s command st).2.success = true →
        liveProcs s (startFilter s command st).1 = [(st.nextPid, s)]
        ∧ (∀ f, findEntry s st.filters = some f →
            hasNat f.pid (startFilter s command st).1.dead = true))
  ∧ (∀ (st : SFState) (s : String), stopFilter s (stopFilter s st) = stopFilter s st)
  ∧ (∀ (st : SFState) (s : String), findEntry s st.filters = none →
        stopFilter s st = st) := by
  refine ⟨?_, ?_, ?_, ?_⟩
  · intro st hr s
    exact liveProcs_len_le_one (sfReach_inv hr) s
  · intro st s command hr hsucc
    have hInv := sfReach_inv hr
    have hInv1 := sfInv_stop hInv s
    constructor
    · rw [startFilter_of_success hsucc, stopFilter_nextPid]
      have hfresh : hasNat st.nextPid (stopFilter s st).dead = false := by
        cases hh : hasNat st.nextPid (stopFilter s st).dead with
        | false => rfl
        | true =>
          exfalso
          rw [hasNat_iff] at hh
          obtain ⟨p, hp, hpe⟩ := hInv1.2.2.1 _ hh
          have hlt := hInv1.1 p hp
          rw [stopFilter_nextPid] at hlt
          omega
      have htail : liveProcs s (stopFilter s st) = [] := liveProcs_stopFilter hInv s
      unfold liveProcs at htail ⊢
      rw [List.filter_cons]
      simp only [beq_self_eq_true, Bool.true_and, hfresh, Bool.not_false, if_true]
      rw [htail]
    · intro f hf
      rw [startFilter_of_success hsucc]
      show hasNat f.pid (stopFilter s st).dead = true
      rw [stopFilter_of_some hf, hasNat_cons]
      simp
  · intro st s
    exact stopFilter_of_none (stopFilter_findEntry_self s st)
  · intro st s h
    exact stopFilter_of_none h

/-- Witness for C5 at a concrete reachable state with a live filter. -/
theorem c5_single_live_filter_witness :
    (liveProcs "A" (startFilter "A" "grep x" initFilterState).1).length ≤ 1
  ∧ (startFilter "A" "grep y" (startFilter "A" "grep x" initFilterState).1).2.success = true
  ∧ liveProcs "A"
      (startFilter "A" "grep y" (startFilter "A" "grep x" initFilterState).1).1 =
      [((startFilter "A" "grep x" initFilterState).1.nextPid, "A")] := by
  have hr : FilterReach (startFilter "A" "grep x" initFilterState).1 :=
    FilterReach.start "A" "grep x" FilterReach.init
  have hsucc :
      (startFilter "A" "grep y" (startFilter "A" "grep x" initFilterState).1).2.success =
        true := by decide
  exact ⟨c5_single_live_filter.1 _ hr "A", hsucc,
    (c5_single_live_filter.2.1 _ "A" "grep y" hr hsucc).1⟩

end ShellFilter

namespace SSHTunnel

theorem closeTunnel_of_none {st : TState} {id : String}
    (h : findEntry id st.tunnels = none) : closeTunnel id st = st := by
  unfold closeTunnel
  rw [h]

theorem closeTunnel_of_some {st : TState} {id : String} {hd : Nat}
    (h : findEntry id st.tunnels = some hd) :
    closeTunnel id st =
      { st with tunnels := eraseEntry id st.tunnels, closed := hd :: st.closed } := by
  unfold closeTunnel
  rw [h]

theorem closeTunnel_nextHandle (id : String) (st : TState) :
    (closeTunnel id st).nextHandle = st.nextHandle := by
  cases h : findEntry id st.tunnels
  · rw [closeTunnel_of_none h]
  · rw [closeTunnel_of_some h]

theorem closeTunnel_findEntry_self (id : String) (st : TState) :
    findEntry id (closeTunnel id st).tunnels = none := by
  cases h : findEntry id st.tunnels
  · rw [closeTunnel_of_none h]
    exact h
  · rw [closeTunnel_of_some h]
    exact findEntry_eraseEntry_self id st.tunnels

theorem createTunnel_eq (id : String) (ok : Bool) (st : TState) :
    createTunnel id ok st =
      if ok then
        ⟨(id, (closeTunnel id st).nextHandle) :: eraseEntry id (closeTunnel id st).tunnels,
         ((closeTunnel id st).nextHandle, id) :: (closeTunnel id st).handles,
         (closeTunnel id st).closed, (closeTunnel id st).nextHandle + 1⟩
      else closeTunnel id st := by
  unfold createTunnel
  cases h : findEntry id st.tunnels with
  | none =>
    rw [closeTunnel_of_none h]
    cases ok <;> rfl
  | some hd =>
    cases ok <;> rfl

theorem tInv_init : TInv initTunnelState := by
  refine ⟨?_, ?_, ?_, ?_, ?_⟩
  · intro p hp
    simp [initTunnelState] at hp
  · simp [initTunnelState]
  · intro n hn
    simp [initTunnelState] at hn
  · intro id h hf
    simp [initTunnelState, findEntry] at hf
  · intro p hp
    simp [initTunnelState] at hp

theorem liveListeners_eq_nil_of_none {st : TState} {id : String} (hInv : TInv st)
    (h : findEntry id st.tunnels = none) : liveListeners id st = [] := by
  unfold liveListeners
  rw [List.filter_eq_nil_iff]
  intro p hp hpred
  rw [Bool.and_eq_true, beq_iff_eq, Bool.not_eq_true'] at hpred
  obtain ⟨hps, hclosed⟩ := hpred
  have hf := hInv.2.2.2.2 p hp hclosed
  rw [hps, h] at hf
  exact Option.noConfusion hf

theorem liveListeners_closeTunnel {st : TState} (hInv : TInv st) (id : String) :
    liveListeners id (closeTunnel id st) = [] := by
  cases h : findEntry id st.tunnels with
  | none =>
    rw [closeTunnel_of_none h]
    exact liveListeners_eq_nil_of_none hInv h
  | some hd =>
    rw [closeTunnel_of_some h]
    unfold liveListeners
    rw [List.filter_eq_nil_iff]
    intro p hp hpred
    rw [Bool.and_eq_true, beq_iff_eq, Bool.not_eq_true'] at hpred
    obtain ⟨hps, hclosed⟩ := hpred
    rw [hasNat_cons] at hclosed
    by_cases hhp : hd = p.1
    · rw [if_pos hhp] at hclosed
      exact absurd hclosed (by simp)
    · rw [if_neg hhp] at hclosed
      have hf := hInv.2.2.2.2 p hp hclosed
      rw [hps, h] at hf
      exact hhp (Option.some.inj hf)

theorem tInv_close {st : TState} (hInv : TInv st) (id : String) :
    TInv (closeTunnel id st) := by
  cases h : findEntry id st.tunnels with
  | none =>
    rw [closeTunnel_of_none h]
    exact hInv
  | some hd =>
    have hreg := hInv.2.2.2.1 id hd h
    obtain ⟨h1, h2, h3, h4, h5⟩ := hInv
    rw [closeTunnel_of_some h]
    refine ⟨h1, h2, ?_, ?_, ?_⟩
    · intro n hn
      rcases List.mem_cons.mp hn with rfl | hn'
      · exact ⟨(n, id), hreg, rfl⟩
      · exact h3 n hn'
    · intro t g hg
      by_cases hts : t = id
      · subst hts
        rw [findEntry_eraseEntry_self] at hg
        exact absurd hg (by simp)
      · rw [findEntry_eraseEntry_ne hts] at hg
        exact h4 t g hg
    · intro p hp hclosed
      rw [hasNat_cons] at hclosed
      by_cases hhp : hd = p.1
      · rw [if_pos hhp] at hclosed
        exact absurd hclosed (by simp)
      · rw [if_neg hhp] at hclosed
        have hf := h5 p hp hclosed
        by_cases hps : p.2 = id
        · rw [hps, h] at hf
          exact absurd (Option.some.inj hf) hhp
        · rw [findEntry_eraseEntry_ne hps]
          exact hf

theorem tInv_register (st1 : TState) (hInv : TInv st1) (id : String)
    (hlive : liveListeners id st1 = []) :
    TInv ⟨(id, st1.nextHandle) :: eraseEntry id st1.tunnels,
          (st1.nextHandle, id) :: st1.handles, st1.closed, st1.nextHandle + 1⟩ := by
  obtain ⟨h1, h2, h3, h4, h5⟩ := hInv
  refine ⟨?_, ?_, ?_, ?_, ?_⟩
  · intro p hp
    rcases List.mem_cons.mp hp with rfl | hp'
    · exact Nat.lt_succ_self _
    · exact Nat.lt_succ_of_lt (h1 p hp')
  · rw [List.map_cons, List.nodup_cons]
    refine ⟨?_, h2⟩
    intro hmem
    rw [List.mem_map] at hmem
    obtain ⟨p, hp, hpe⟩ := hmem
    have := h1 p hp
    omega
  · intro n hn
    obtain ⟨p, hp, hpn⟩ := h3 n hn
    exact ⟨p, List.mem_cons_of_mem _ hp, hpn⟩
  · intro t g hg
    rw [findEntry_cons] at hg
    by_cases hts : id = t
    · rw [if_pos hts] at hg
      obtain rfl := Option.some.inj hg
      subst hts
      exact List.mem_cons_self _ _
    · rw [if_neg hts, findEntry_eraseEntry_ne (fun he => hts he.symm)] at hg
      exact List.mem_cons_of_mem _ (h4 t g hg)
  · intro p hp hclosed
    rcases List.mem_cons.mp hp with rfl | hp'
    · rw [findEntry_cons, if_pos rfl]
    · by_cases hps : p.2 = id
      · exfalso
        have hpl : p ∈ liveListeners id st1 := by
          unfold liveListeners
          rw [List.mem_filter]
          refine ⟨hp', ?_⟩
          rw [Bool.and_eq_true, beq_iff_eq, Bool.not_eq_true']
          exact ⟨hps, hclosed⟩
        rw [hlive] at hpl
        simp at hpl
      · rw [findEntry_cons, if_neg (fun he => hps he.symm),
          findEntry_eraseEntry_ne hps]
        exact h5 p hp' hclosed

theorem tInv_create {st : TState} (hInv : TInv st) (id : String) (ok : Bool) :
    TInv (createTunnel id ok st) := by
  rw [createTunnel_eq]
  cases ok with
  | false => exact tInv_close hInv id
  | true =>
    exact tInv_register (closeTunnel id st) (tInv_close hInv id) id
      (liveListeners_closeTunnel hInv id)

theorem tReach_inv {st : TState} (hr : TunnelReach st) : TInv st := by
  induction hr with
  | init => exact tInv_init
  | create id ok hr ih => exact tInv_create ih id ok
  | close id hr ih => exact tInv_close ih id

theorem liveListeners_len_le_one {st : TState} (hInv : TInv st) (id : String) :
    (liveListeners id st).length ≤ 1 := by
  cases h : findEntry id st.tunnels with
  | none =>
    rw [liveListeners_eq_nil_of_none hInv h]
    simp
  | some hd =>
    apply pairList_length_le_one hd
    · exact List.Nodup.sublist ((List.filter_sublist _).map Prod.fst) hInv.2.1
    · intro p hp
      unfold liveListeners at hp
      rw [List.mem_filter] at hp
      obtain ⟨hmem, hpred⟩ := hp
      rw [Bool.and_eq_true, beq_iff_eq, Bool.not_eq_true'] at hpred
      have hf := hInv.2.2.2.2 p hmem hpred.2
      rw [hpred.1, h] at hf
      exact (Option.some.inj hf).symm

/-- C6: in every reachable state at most one live listener exists per
connection id; creating a tunnel for an id that already has one first
closes the old tunnel (its handle is closed under any outcome of the new
connection) and removes it from the registry; a failed re-creation leaves
exactly the closed state, and a successful creation registers the fresh
handle. -/
theorem c6_single_tunnel_per_connection :
    (∀ st : TState, TunnelReach st → ∀ id : String, (liveListeners id st).length ≤ 1)
  ∧ (∀ (st : TState) (id : String) (ok : Bool) (h : Nat),
        findEntry id st.tunnels = some h →
        hasNat h (createTunnel id ok st).closed = true)
  ∧ (∀ (st : TState) (id : String), findEntry id (closeTunnel id st).tunnels = none)
  ∧ (∀ (st : TState) (id : String), createTunnel id false st = closeTunnel id st)
  ∧ (∀ (st : TState) (id : String),
        findEntry id (createTunnel id true st).tunnels = some st.nextHandle) := by
  refine ⟨?_, ?_, ?_, ?_, ?_⟩
  · intro st hr id
    exact liveListeners_len_le_one (tReach_inv hr) id
  · intro st id ok h hf
    rw [createTunnel_eq]
    cases ok with
    | false =>
      show hasNat h (closeTunnel id st).closed = true
      rw [closeTunnel_of_some hf, hasNat_cons]
      simp
    | true =>
      show hasNat h (closeTunnel id st).closed = true
      rw [closeTunnel_of_some hf, hasNat_cons]
      simp
  · intro st id
    exact closeTunnel_findEntry_self id st
  · intro st id
    rw [createTunnel_eq]
    rfl
  · intro st id
    rw [createTunnel_eq]
    show findEntry id ((id, (closeTunnel id st).nextHandle) :: _) = some st.nextHandle
    rw [findEntry_cons, if_pos rfl, closeTunnel_nextHandle]

/-- Witness for C6 at a concrete reachable state with an existing tunnel. -/
theorem c6_single_tunnel_per_connection_witness :
    (liveListeners "c" (createTunnel "c" true initTunnelState)).length ≤ 1
  ∧ findEntry "c" (createTunnel "c" true initTunnelState).tunnels = some 0
  ∧ hasNat 0 (createTunnel "c" true (createTunnel "c" true initTunnelState)).closed = true := by
  have hr : TunnelReach (createTunnel "c" true initTunnelState) :=
    TunnelReach.create "c" true TunnelReach.init
  refine ⟨c6_single_tunnel_per_connection.1 _ hr "c", by decide, ?_⟩
  exact c6_single_tunnel_per_connection.2.1 _ "c" true 0 (by decide)

end SSHTunnel

namespace K8s

/-- C1, evaluated at the failing input: two successive startLogStream
calls for the same sessionId leave two remote streams active for that
session, because the registry entry is overwritten without invoking the
first stream's abort handle; a subsequent stopLogStream aborts only the
second stream, so the first keeps streaming with no way to reach it. -/
theorem c1_duplicate_stream_leak :
    (activeStreams "A"
        (startLogStream "A" (startLogStream "A" initStreamState))).length = 2
  ∧ hasNat 0 (startLogStream "A" (startLogStream "A" initStreamState)).aborted = false
  ∧ findEntry "A"
      (startLogStream "A" (startLogStream "A" initStreamState)).logStreams = some 1
  ∧ (activeStreams "A"
        (stopLogStream "A"
          (startLogStream "A" (startLogStream "A" initStreamState)))).length = 1 := by
  decide

end K8s
